import Mathlib

/-!
Verification of the Dendritic Gated Network (DGN) notebook
(`gated_linear_networks/colabs/dendritic_gated_network.ipynb`).

The notebook's two step functions (`step_square_loss`, `step_bernoulli`)
operate on per-layer numpy tensors:
  * `weights`    : shape (n_neurons, n_branches, n_inputs_incl_bias), mutable;
  * `hyperplanes`: shape (n_neurons, n_branches, n_features + 1), frozen.
We embed tensors as functions `ℕ → ℕ → ℕ → ℚ` together with explicit
dimensions, vectors as `ℕ → ℚ` with explicit lengths, and the python loop
`for w, h in zip(weights, hyperplanes)` as structural recursion over a list
of layers (each layer carrying its weight tensor and its hyperplane tensor,
mirroring the zipped pair).  All arithmetic is over `ℚ`; the transcendental
functions `sigmoid` and `log` of the Bernoulli regime are passed as
parameters (`σ`, `lg`) because they are not rational-valued — every claim
below is independent of their analytic values.
-/

/-- `np.heaviside x x2`: 0 for negative `x`, `x2` at 0, 1 for positive `x`. -/
def heaviside (x x2 : ℚ) : ℚ :=
  if x < 0 then 0 else if x = 0 then x2 else 1

/-- numpy `astype(bool)`: a number is truthy iff it is nonzero. -/
def astype_bool (x : ℚ) : Bool := x ≠ 0

/-- Dot product of the first `n` components of two vectors
(numpy `v.dot(u)` on 1-D arrays of length `n`). -/
def dotR (n : ℕ) (v u : ℕ → ℚ) : ℚ :=
  ∑ k in Finset.range n, v k * u k

/-- `np.hstack([c, r])`: prepend the scalar `c` to the vector `r`.
Used both for the bias unit prepended to activations and for the
bias magnitude prepended to the side information. -/
def augment (c : ℚ) (r : ℕ → ℚ) : ℕ → ℚ :=
  fun k => if k = 0 then c else r (k - 1)

/-- Cast of a boolean gate back to a number, as numpy does when a boolean
array enters an arithmetic expression. -/
def boolToQ (b : Bool) : ℚ := if b then 1 else 0

/-- One layer of the DGN: the weight tensor `w` (first two dimensions
`nNeurons × nBranches`; the input dimension is implicit, given by the size
of the incoming activation) zipped with the frozen hyperplane tensor `h`
(dimensions `nNeurons × nBranches × (F+1)`).  A list of `DGNLayer`s is the
python `zip(weights, hyperplanes)`. -/
structure DGNLayer where
  nNeurons : ℕ
  nBranches : ℕ
  w : ℕ → ℕ → ℕ → ℚ
  h : ℕ → ℕ → ℕ → ℚ

instance : Inhabited DGNLayer := ⟨⟨0, 0, fun _ _ _ => 0, fun _ _ _ => 0⟩⟩

/-- `gate_values = np.heaviside(h.dot(side_info), 0).astype(bool)`:
the boolean gate of neuron `n`, branch `b`, from the sign of the dot
product of that branch's hyperplane with the side-information vector
(of length `S = F + 1`). -/
def gate_values (L : DGNLayer) (S : ℕ) (side : ℕ → ℚ) (n b : ℕ) : Bool :=
  astype_bool (heaviside (dotR S (L.h n b) side) 0)

/-- `effective_weights = gate_values.dot(w).sum(axis=1)` under numpy `dot`
semantics: for a 2-D `g` (N×B) and a 3-D `w` (N×B×I),
`g.dot(w)[i, j, k] = ∑ b, g[i, b] * w[j, b, k]` (contraction of the last
axis of `g` with the second-to-last axis of `w`), so after `.sum(axis=1)`
the row `i` is `∑ j, ∑ b, g[i, b] * w[j, b, k]` — it ranges over the
weights of every neuron `j` of the layer, not only neuron `i`. -/
def effective_weights (L : DGNLayer) (g : ℕ → ℕ → Bool) (i k : ℕ) : ℚ :=
  ∑ j in Finset.range L.nNeurons, ∑ b in Finset.range L.nBranches,
    boolToQ (g i b) * L.w j b k

/-- The per-neuron masked reduction over the branch dimension only.
Modelled from the spec's words: "Per neuron, select (sum …) the weight
vectors of active branches", "a per-neuron masked reduction over a branch
dimension"; neuron `i`'s effective weight uses only neuron `i`'s branches. -/
def spec_effective_weights (L : DGNLayer) (g : ℕ → ℕ → Bool) (i k : ℕ) : ℚ :=
  ∑ b in Finset.range L.nBranches, boolToQ (g i b) * L.w i b k

section SquareLoss

variable (F : ℕ) (side : ℕ → ℚ) (lr target : ℚ) (update : Bool)

/-- Squared-loss layer output: `r_out = effective_weights.dot(r_in)` where
`r_in` was bias-augmented by `np.hstack([1., r_in])` and has length
`rlen + 1`. -/
def sqLayerOut (L : DGNLayer) (rin : ℕ → ℚ) (rlen : ℕ) : ℕ → ℚ :=
  fun i => dotR (rlen + 1) (effective_weights L (gate_values L (F + 1) side) i)
    (augment 1 rin)

/-- Squared-loss weight update
`w -= learning_rate * gate_values[:, :, None] * grad[:, None]` with
`grad = (r_out[:, None] - target) * r_in[None]`; when `update` is false the
weights are returned untouched. -/
def sqLayerW (L : DGNLayer) (rin : ℕ → ℚ) (rlen : ℕ) (update : Bool) :
    ℕ → ℕ → ℕ → ℚ :=
  if update then
    fun j b k => L.w j b k -
      lr * boolToQ (gate_values L (F + 1) side j b) *
        ((sqLayerOut F side L rin rlen j - target) * augment 1 rin k)
  else L.w

/-- The squared-loss layer loop (`for w, h in zip(weights, hyperplanes)`).
Returns the final activation vector, its length, and the list of layers
with updated weights.  `rin`/`rlen` is the incoming activation of the first
remaining layer (the raw inputs for the whole call, of length `F`). -/
def runSq : List DGNLayer → (ℕ → ℚ) → ℕ → ((ℕ → ℚ) × ℕ × List DGNLayer)
  | [], rin, rlen => (rin, rlen, [])
  | L :: rest, rin, rlen =>
    let res := runSq rest (sqLayerOut F side L rin rlen) L.nNeurons
    (res.1, res.2.1,
      { L with w := sqLayerW F side lr target L rin rlen update } :: res.2.2)

end SquareLoss

/-- `step_square_loss`: side information `np.hstack([bias_magnitude,
inputs])`, the layer loop, and the final loss `(target - r_out)**2 / 2`.
Returns `(r_out, loss, updated weights)`; the state is returned because the
python function mutates the weight arrays in place. -/
def step_square_loss (inputs : ℕ → ℚ) (F : ℕ) (layers : List DGNLayer)
    (biasMag lr target : ℚ) (update : Bool) :
    (ℕ → ℚ) × (ℕ → ℚ) × List DGNLayer :=
  let side := augment biasMag inputs
  let res := runSq F side lr target update layers inputs F
  (res.1, fun i => (target - res.1 i) ^ 2 / 2, res.2.2)

/-- The activation fed to layer `ℓ` of the squared-loss loop (the pair
`(r_in, rlen)` at the start of iteration `ℓ`): instrumentation of `runSq`
exposing its intermediate state, built from the same layer body
`sqLayerOut`.  `ℓ = 0` gives the loop's initial activation. -/
def sqActs (F : ℕ) (side : ℕ → ℚ) :
    List DGNLayer → (ℕ → ℚ) → ℕ → ℕ → ((ℕ → ℚ) × ℕ)
  | _, rin, rlen, 0 => (rin, rlen)
  | [], rin, rlen, _ + 1 => (rin, rlen)
  | L :: rest, rin, rlen, ℓ + 1 =>
    sqActs F side rest (sqLayerOut F side L rin rlen) L.nNeurons ℓ

/-- `np.clip x lo hi = np.minimum(np.maximum(x, lo), hi)`. -/
def np_clip (x lo hi : ℚ) : ℚ := min (max x lo) hi

/-- `inverse_sigmoid(x) = np.log(x/(1-x))`, with the transcendental `log`
passed as the parameter `lg`. -/
def inverse_sigmoid (lg : ℚ → ℚ) (x : ℚ) : ℚ := lg (x / (1 - x))

section Bernoulli

variable (σ lg : ℚ → ℚ) (F : ℕ) (side : ℕ → ℚ) (lr ε target : ℚ) (update : Bool)

/-- Bernoulli layer, log-odds input: `h_in = inverse_sigmoid(r_in)` after
the bias prepend `r_in = np.hstack([sigmoid(1.), r_in])`. -/
def bernHin (rin : ℕ → ℚ) : ℕ → ℚ :=
  fun k => inverse_sigmoid lg (augment (σ 1) rin k)

/-- Bernoulli layer, pre-clip output:
`r_out_unclipped = sigmoid(effective_weights.dot(h_in))`. -/
def bernOutU (L : DGNLayer) (rin : ℕ → ℚ) (rlen : ℕ) : ℕ → ℚ :=
  fun i => σ (dotR (rlen + 1)
    (effective_weights L (gate_values L (F + 1) side) i) (bernHin σ lg rin))

/-- Bernoulli layer output:
`r_out = np.clip(r_out_unclipped, epsilon, 1 - epsilon)`. -/
def bernOut (L : DGNLayer) (rin : ℕ → ℚ) (rlen : ℕ) : ℕ → ℚ :=
  fun i => np_clip (bernOutU σ lg F side L rin rlen i) ε (1 - ε)

/-- Bernoulli weight update:
`update_indicator = np.abs(target - r_out_unclipped) > epsilon`,
`grad = (r_out[:, None] - target) * h_in[None] * update_indicator[:, None]`,
`w -= learning_rate * gate_values[:, :, None] * grad[:, None]`;
untouched when `update` is false. -/
def bernLayerW (L : DGNLayer) (rin : ℕ → ℚ) (rlen : ℕ) : ℕ → ℕ → ℕ → ℚ :=
  if update then
    fun j b k => L.w j b k -
      lr * boolToQ (gate_values L (F + 1) side j b) *
        ((bernOut σ lg F side ε L rin rlen j - target) * bernHin σ lg rin k *
          boolToQ (ε < |target - bernOutU σ lg F side L rin rlen j|))
  else L.w

/-- The Bernoulli layer loop (`for w, h in zip(weights, hyperplanes)`).
Returns the final activation vector, its length, and the updated layers. -/
def runBern : List DGNLayer → (ℕ → ℚ) → ℕ → ((ℕ → ℚ) × ℕ × List DGNLayer)
  | [], rin, rlen => (rin, rlen, [])
  | L :: rest, rin, rlen =>
    let res := runBern rest (bernOut σ lg F side ε L rin rlen) L.nNeurons
    (res.1, res.2.1,
      { L with w := bernLayerW σ lg F side lr ε target update L rin rlen } :: res.2.2)

/-- The activation fed to layer `ℓ` of the Bernoulli loop: instrumentation
of `runBern` exposing its intermediate state, built from the same layer
body `bernOut`.  `ℓ = 0` gives the loop's initial activation. -/
def bernActs : List DGNLayer → (ℕ → ℚ) → ℕ → ℕ → ((ℕ → ℚ) × ℕ)
  | _, rin, rlen, 0 => (rin, rlen)
  | [], rin, rlen, _ + 1 => (rin, rlen)
  | L :: rest, rin, rlen, ℓ + 1 =>
    bernActs rest (bernOut σ lg F side ε L rin rlen) L.nNeurons ℓ

end Bernoulli

/-- `step_bernoulli`: the input squashing
`r_in = np.clip(sigmoid(inputs), epsilon, 1 - epsilon)`, side information
`np.hstack([bias_magnitude, inputs])` from the raw inputs, the layer loop,
and the final Bernoulli log loss
`-(target*log(r_out) + (1-target)*log(1-r_out))`.
Returns `(r_out, loss, updated weights)`. -/
def step_bernoulli (σ lg : ℚ → ℚ) (inputs : ℕ → ℚ) (F : ℕ)
    (layers : List DGNLayer) (biasMag lr ε target : ℚ) (update : Bool) :
    (ℕ → ℚ) × (ℕ → ℚ) × List DGNLayer :=
  let side := augment biasMag inputs
  let r0 : ℕ → ℚ := fun k => np_clip (σ (inputs k)) ε (1 - ε)
  let res := runBern σ lg F side lr ε target update layers r0 F
  (res.1, fun i => -(target * lg (res.1 i) + (1 - target) * lg (1 - res.1 i)),
    res.2.2)

/-- Squared per-neuron normalizer of the hyperplane initialization:
the square of `np.linalg.norm(h_[:, :, :-1], axis=(1, 2))` — a joint sum
over all `B` branches of neuron `n` and over the first `F` of its `F + 1`
hyperplane components (numpy `[:, :, :-1]` drops the last component). -/
def hyp_norm_sq (B F : ℕ) (h : ℕ → ℕ → ℕ → ℚ) (n : ℕ) : ℚ :=
  ∑ b in Finset.range B, ∑ k in Finset.range F, h n b k ^ 2

/-- `dgn_hyperplanes` normalization:
`h_ / np.linalg.norm(h_[:, :, :-1], axis=(1, 2))[:, None, None]`.
The Euclidean norm itself is not rational-valued, so the per-neuron norm is
passed as `nrm`; callers characterize it by `0 < nrm n` and
`nrm n ^ 2 = hyp_norm_sq B F h n`. -/
def dgn_hyperplanes (h : ℕ → ℕ → ℕ → ℚ) (nrm : ℕ → ℚ) (n b k : ℕ) : ℚ :=
  h n b k / nrm n

/-- A one-neuron, one-branch layer with zero weights and all-ones
hyperplane (the single gate is active on all-positive side information):
the concrete layer of the spec's end-to-end scenario. -/
def WL : DGNLayer := ⟨1, 1, fun _ _ _ => 0, fun _ _ _ => 1⟩

/-- A two-neuron, one-branch layer: neuron 0 has zero weights, neuron 1
has weight 5 everywhere; all-ones hyperplanes (every gate active on
positive side information). -/
def C1L : DGNLayer := ⟨2, 1, fun j _ _ => if j = 0 then 0 else 5, fun _ _ _ => 1⟩

/-- Concrete raw hyperplane tensor for one neuron, one branch, one input
feature: component 0 (the bias slot of the side information) is 1,
all later components are 2. -/
def C3h : ℕ → ℕ → ℕ → ℚ := fun _ _ k => if k = 0 then 1 else 2

/-- A one-neuron, one-branch layer with zero weights and all-minus-ones
hyperplane: its gate is inactive on all-positive side information. -/
def WLneg : DGNLayer := ⟨1, 1, fun _ _ _ => 0, fun _ _ _ => -1⟩

/-! ### Helper lemmas -/

/-- The updated-layer list of the squared-loss loop, elementwise: layer `ℓ`
of the result is layer `ℓ` of the input with its weights put through
`sqLayerW` at the activation `sqActs … ℓ` that the loop feeds it. -/
theorem runSq_getElem? (F : ℕ) (side : ℕ → ℚ) (lr target : ℚ) (update : Bool) :
    ∀ (layers : List DGNLayer) (rin : ℕ → ℚ) (rlen ℓ : ℕ),
      ((runSq F side lr target update layers rin rlen).2.2)[ℓ]? =
        (layers[ℓ]?).map (fun L =>
          { L with w := (sqLayerW F side lr target L
              (sqActs F side layers rin rlen ℓ).1
              (sqActs F side layers rin rlen ℓ).2 update) })
  | [], rin, rlen, ℓ => by simp [runSq]
  | L :: rest, rin, rlen, 0 => by simp [runSq, sqActs]
  | L :: rest, rin, rlen, ℓ + 1 => by
    simpa [runSq, sqActs] using
      runSq_getElem? F side lr target update rest
        (sqLayerOut F side L rin rlen) L.nNeurons ℓ

/-- `getD` version of `runSq_getElem?`. -/
theorem runSq_getD (F : ℕ) (side : ℕ → ℚ) (lr target : ℚ) (update : Bool)
    (layers : List DGNLayer) (rin : ℕ → ℚ) (rlen ℓ : ℕ)
    (hℓ : ℓ < layers.length) :
    (runSq F side lr target update layers rin rlen).2.2.getD ℓ default =
      { layers.getD ℓ default with
        w := (sqLayerW F side lr target (layers.getD ℓ default)
          (sqActs F side layers rin rlen ℓ).1
          (sqActs F side layers rin rlen ℓ).2 update) } := by
  have h1 := runSq_getElem? F side lr target update layers rin rlen ℓ
  have h2 : layers[ℓ]? = some (layers.getD ℓ default) := by
    rw [List.getElem?_eq_getElem hℓ, List.getD_eq_getElem _ _ hℓ]
  rw [List.getD_eq_getElem?_getD, h1, h2]
  rfl

/-- The updated-layer list of the Bernoulli loop, elementwise. -/
theorem runBern_getElem? (σ lg : ℚ → ℚ) (F : ℕ) (side : ℕ → ℚ)
    (lr ε target : ℚ) (update : Bool) :
    ∀ (layers : List DGNLayer) (rin : ℕ → ℚ) (rlen ℓ : ℕ),
      ((runBern σ lg F side lr ε target update layers rin rlen).2.2)[ℓ]? =
        (layers[ℓ]?).map (fun L =>
          { L with w := (bernLayerW σ lg F side lr ε target update L
              (bernActs σ lg F side ε layers rin rlen ℓ).1
              (bernActs σ lg F side ε layers rin rlen ℓ).2) })
  | [], rin, rlen, ℓ => by simp [runBern]
  | L :: rest, rin, rlen, 0 => by simp [runBern, bernActs]
  | L :: rest, rin, rlen, ℓ + 1 => by
    simpa [runBern, bernActs] using
      runBern_getElem? σ lg F side lr ε target update rest
        (bernOut σ lg F side ε L rin rlen) L.nNeurons ℓ

/-- `getD` version of `runBern_getElem?`. -/
theorem runBern_getD (σ lg : ℚ → ℚ) (F : ℕ) (side : ℕ → ℚ)
    (lr ε target : ℚ) (update : Bool)
    (layers : List DGNLayer) (rin : ℕ → ℚ) (rlen ℓ : ℕ)
    (hℓ : ℓ < layers.length) :
    (runBern σ lg F side lr ε target update layers rin rlen).2.2.getD ℓ default =
      { layers.getD ℓ default with
        w := (bernLayerW σ lg F side lr ε target update (layers.getD ℓ default)
          (bernActs σ lg F side ε layers rin rlen ℓ).1
          (bernActs σ lg F side ε layers rin rlen ℓ).2) } := by
  have h1 := runBern_getElem? σ lg F side lr ε target update layers rin rlen ℓ
  have h2 : layers[ℓ]? = some (layers.getD ℓ default) := by
    rw [List.getElem?_eq_getElem hℓ, List.getD_eq_getElem _ _ hℓ]
  rw [List.getD_eq_getElem?_getD, h1, h2]
  rfl

/-- Without update, the squared-loss loop hands the layers back unchanged. -/
theorem runSq_update_false (F : ℕ) (side : ℕ → ℚ) (lr target : ℚ) :
    ∀ (layers : List DGNLayer) (rin : ℕ → ℚ) (rlen : ℕ),
      (runSq F side lr target false layers rin rlen).2.2 = layers
  | [], _, _ => rfl
  | L :: rest, rin, rlen => by
    simp only [runSq, sqLayerW, Bool.false_eq_true, if_false]
    exact congrArg (L :: ·)
      (runSq_update_false F side lr target rest (sqLayerOut F side L rin rlen) L.nNeurons)

/-- Without update, the Bernoulli loop hands the layers back unchanged. -/
theorem runBern_update_false (σ lg : ℚ → ℚ) (F : ℕ) (side : ℕ → ℚ)
    (lr ε target : ℚ) :
    ∀ (layers : List DGNLayer) (rin : ℕ → ℚ) (rlen : ℕ),
      (runBern σ lg F side lr ε target false layers rin rlen).2.2 = layers
  | [], _, _ => rfl
  | L :: rest, rin, rlen => by
    simp only [runBern, bernLayerW, Bool.false_eq_true, if_false]
    exact congrArg (L :: ·)
      (runBern_update_false σ lg F side lr ε target rest
        (bernOut σ lg F side ε L rin rlen) L.nNeurons)

/-- The activation and its length returned by the squared-loss loop do not
depend on the update flag. -/
theorem runSq_out_ind (F : ℕ) (side : ℕ → ℚ) (lr target : ℚ) (u u' : Bool) :
    ∀ (layers : List DGNLayer) (rin : ℕ → ℚ) (rlen : ℕ),
      (runSq F side lr target u layers rin rlen).1 =
        (runSq F side lr target u' layers rin rlen).1 ∧
      (runSq F side lr target u layers rin rlen).2.1 =
        (runSq F side lr target u' layers rin rlen).2.1
  | [], _, _ => ⟨rfl, rfl⟩
  | L :: rest, rin, rlen => by
    simpa [runSq] using
      runSq_out_ind F side lr target u u' rest (sqLayerOut F side L rin rlen) L.nNeurons

/-- The activation and its length returned by the Bernoulli loop do not
depend on the update flag. -/
theorem runBern_out_ind (σ lg : ℚ → ℚ) (F : ℕ) (side : ℕ → ℚ)
    (lr ε target : ℚ) (u u' : Bool) :
    ∀ (layers : List DGNLayer) (rin : ℕ → ℚ) (rlen : ℕ),
      (runBern σ lg F side lr ε target u layers rin rlen).1 =
        (runBern σ lg F side lr ε target u' layers rin rlen).1 ∧
      (runBern σ lg F side lr ε target u layers rin rlen).2.1 =
        (runBern σ lg F side lr ε target u' layers rin rlen).2.1
  | [], _, _ => ⟨rfl, rfl⟩
  | L :: rest, rin, rlen => by
    simpa [runBern] using
      runBern_out_ind σ lg F side lr ε target u u' rest
        (bernOut σ lg F side ε L rin rlen) L.nNeurons

/-- Clipping to `[ε, 1-ε]` lands in `[ε, 1-ε]` whenever the interval is
nonempty. -/
theorem np_clip_mem (x ε : ℚ) (hε : 2 * ε ≤ 1) :
    ε ≤ np_clip x ε (1 - ε) ∧ np_clip x ε (1 - ε) ≤ 1 - ε := by
  refine ⟨le_min (le_max_right x ε) (by linarith), min_le_right _ _⟩

/-- Every activation the Bernoulli loop feeds forward stays in `[ε, 1-ε]`
once the initial one does. -/
theorem bernActs_mem (σ lg : ℚ → ℚ) (F : ℕ) (side : ℕ → ℚ) (ε : ℚ)
    (hε : 2 * ε ≤ 1) :
    ∀ (layers : List DGNLayer) (rin : ℕ → ℚ) (rlen : ℕ),
      (∀ i, ε ≤ rin i ∧ rin i ≤ 1 - ε) →
      ∀ ℓ i, ε ≤ (bernActs σ lg F side ε layers rin rlen ℓ).1 i ∧
        (bernActs σ lg F side ε layers rin rlen ℓ).1 i ≤ 1 - ε
  | [], rin, rlen, hr, ℓ, i => by
    cases ℓ <;> simpa [bernActs] using hr i
  | _ :: _, rin, rlen, hr, 0, i => by simpa [bernActs] using hr i
  | L :: rest, rin, rlen, hr, ℓ + 1, i => by
    simp only [bernActs]
    exact bernActs_mem σ lg F side ε hε rest (bernOut σ lg F side ε L rin rlen)
      L.nNeurons (fun i => np_clip_mem _ ε hε) ℓ i

/-- The final activation of the Bernoulli loop stays in `[ε, 1-ε]` once the
initial one does. -/
theorem runBern_fst_mem (σ lg : ℚ → ℚ) (F : ℕ) (side : ℕ → ℚ)
    (lr ε target : ℚ) (update : Bool) (hε : 2 * ε ≤ 1) :
    ∀ (layers : List DGNLayer) (rin : ℕ → ℚ) (rlen : ℕ),
      (∀ i, ε ≤ rin i ∧ rin i ≤ 1 - ε) →
      ∀ i, ε ≤ (runBern σ lg F side lr ε target update layers rin rlen).1 i ∧
        (runBern σ lg F side lr ε target update layers rin rlen).1 i ≤ 1 - ε
  | [], rin, rlen, hr, i => by simpa [runBern] using hr i
  | L :: rest, rin, rlen, hr, i => by
    simp only [runBern]
    exact runBern_fst_mem σ lg F side lr ε target update hε rest
      (bernOut σ lg F side ε L rin rlen) L.nNeurons
      (fun i => np_clip_mem _ ε hε) i

/-! ### Claims -/

/-- C4: In both loss regimes (both `runSq` and `runBern` gate through
`gate_values`), the boolean gate of a (neuron, branch) pair is active iff
the dot product of that branch's hyperplane with the side-information
vector is strictly positive; in particular an exactly-zero dot product
makes the gate inactive. -/
theorem C4_gate_strictly_positive (L : DGNLayer) (S : ℕ) (side : ℕ → ℚ)
    (n b : ℕ) :
    (gate_values L S side n b = true ↔ 0 < dotR S (L.h n b) side) ∧
    (dotR S (L.h n b) side = 0 → gate_values L S side n b = false) := by
  have key : gate_values L S side n b = true ↔ 0 < dotR S (L.h n b) side := by
    unfold gate_values astype_bool heaviside
    split_ifs with h1 h2
    · exact iff_of_false (by simp) (by linarith)
    · exact iff_of_false (by simp) (by simp [h2])
    · exact iff_of_true (by simp) (lt_of_le_of_ne (not_lt.mp h1) (Ne.symm h2))
  refine ⟨key, fun h0 => Bool.eq_false_iff.mpr fun hT => ?_⟩
  have hpos := key.mp hT
  rw [h0] at hpos
  exact lt_irrefl 0 hpos

/-- C8: with `update = false`, neither regime changes any state (the
returned layer list is the argument itself), and a second call from the
returned state yields the identical result, so repeated evaluation passes
produce identical predictions and losses. -/
theorem C8_inference_pure (σ lg : ℚ → ℚ) (inputs : ℕ → ℚ) (F : ℕ)
    (layers : List DGNLayer) (biasMag lr ε target : ℚ) :
    (step_square_loss inputs F layers biasMag lr target false).2.2 = layers ∧
    step_square_loss inputs F
        (step_square_loss inputs F layers biasMag lr target false).2.2
        biasMag lr target false =
      step_square_loss inputs F layers biasMag lr target false ∧
    (step_bernoulli σ lg inputs F layers biasMag lr ε target false).2.2 = layers ∧
    step_bernoulli σ lg inputs F
        (step_bernoulli σ lg inputs F layers biasMag lr ε target false).2.2
        biasMag lr ε target false =
      step_bernoulli σ lg inputs F layers biasMag lr ε target false := by
  have hs : (step_square_loss inputs F layers biasMag lr target false).2.2 = layers :=
    runSq_update_false F (augment biasMag inputs) lr target layers inputs F
  have hb : (step_bernoulli σ lg inputs F layers biasMag lr ε target false).2.2 = layers :=
    runBern_update_false σ lg F (augment biasMag inputs) lr ε target layers
      (fun k => np_clip (σ (inputs k)) ε (1 - ε)) F
  exact ⟨hs, by rw [hs], hb, by rw [hb]⟩

/-- C10: the (prediction, loss) pair returned by either step function with
`update = true` equals the pair returned with `update = false` from the
same starting state: each layer's output is computed from the weights
before they change, so the in-pass update never affects the current
example's own prediction or loss. -/
theorem C10_update_no_effect_on_current (σ lg : ℚ → ℚ) (inputs : ℕ → ℚ)
    (F : ℕ) (layers : List DGNLayer) (biasMag lr ε target : ℚ) :
    ((step_square_loss inputs F layers biasMag lr target true).1 =
        (step_square_loss inputs F layers biasMag lr target false).1 ∧
      (step_square_loss inputs F layers biasMag lr target true).2.1 =
        (step_square_loss inputs F layers biasMag lr target false).2.1) ∧
    ((step_bernoulli σ lg inputs F layers biasMag lr ε target true).1 =
        (step_bernoulli σ lg inputs F layers biasMag lr ε target false).1 ∧
      (step_bernoulli σ lg inputs F layers biasMag lr ε target true).2.1 =
        (step_bernoulli σ lg inputs F layers biasMag lr ε target false).2.1) := by
  have hs := (runSq_out_ind F (augment biasMag inputs) lr target true false
    layers inputs F).1
  have hb := (runBern_out_ind σ lg F (augment biasMag inputs) lr ε target
    true false layers (fun k => np_clip (σ (inputs k)) ε (1 - ε)) F).1
  refine ⟨⟨hs, ?_⟩, hb, ?_⟩
  · exact congrArg (fun x : ℕ → ℚ => fun i => (target - x i) ^ 2 / 2) hs
  · exact congrArg
      (fun x : ℕ → ℚ => fun i => -(target * lg (x i) + (1 - target) * lg (1 - x i))) hb

/-- C9: end-to-end scenario: one layer of one neuron with one branch, two
input features, all-ones hyperplane (gate active on input `[1,1]` with bias
magnitude 1), zero weights, squared loss, input `[1,1]`, target 2,
learning rate 1/10, update on: prediction 0, loss 2, and the updated weight
vector is `[1/5, 1/5, 1/5]` (index 0 is the bias weight). -/
theorem C9_end_to_end_scenario :
    (step_square_loss (fun k => if k < 2 then 1 else 0) 2 [WL] 1 (1/10) 2 true).1 0 = 0 ∧
    (step_square_loss (fun k => if k < 2 then 1 else 0) 2 [WL] 1 (1/10) 2 true).2.1 0 = 2 ∧
    ((step_square_loss (fun k => if k < 2 then 1 else 0) 2 [WL] 1 (1/10) 2
        true).2.2.getD 0 default).w 0 0 0 = 1/5 ∧
    ((step_square_loss (fun k => if k < 2 then 1 else 0) 2 [WL] 1 (1/10) 2
        true).2.2.getD 0 default).w 0 0 1 = 1/5 ∧
    ((step_square_loss (fun k => if k < 2 then 1 else 0) 2 [WL] 1 (1/10) 2
        true).2.2.getD 0 default).w 0 0 2 = 1/5 := by
  norm_num [step_square_loss, runSq, sqLayerOut, sqLayerW, effective_weights,
    gate_values, astype_bool, heaviside, dotR, augment, boolToQ, WL,
    Finset.sum_range_succ]

/-- C1 (code-bug evidence): the claim says each neuron's effective weight
vector is a per-neuron masked sum over its own branches.  The code's
`effective_weights = gate_values.dot(w).sum(axis=1)` instead sums the
branch weights of every neuron of the layer.  Concretely, in `C1L`
(2 neurons, 1 branch, all gates active, neuron 0's weights all 0, neuron
1's all 5), the code gives neuron 0 the effective weight 5 — neuron 1's
weight — while the per-neuron rule (`spec_effective_weights`) gives 0. -/
theorem C1_effective_weight_cross_neuron :
    gate_values C1L 1 (fun _ => 1) 0 0 = true ∧
    gate_values C1L 1 (fun _ => 1) 1 0 = true ∧
    effective_weights C1L (gate_values C1L 1 (fun _ => 1)) 0 0 = 5 ∧
    spec_effective_weights C1L (gate_values C1L 1 (fun _ => 1)) 0 0 = 0 := by
  norm_num [C1L, gate_values, astype_bool, heaviside, dotR, effective_weights,
    spec_effective_weights, boolToQ, Finset.sum_range_succ]

/-- C2: in the squared-loss regime with update on, for every layer `ℓ` the
new weight of neuron `j`, branch `b`, input `k` is the old weight minus
`learning_rate × gate × gradient`, where the gradient is
`(prediction − target) × bias-augmented incoming activation` — the
prediction being that layer's output for neuron `j` (the quantity the
target is subtracted from), the incoming activation `(sqActs … ℓ).1` being
what the loop feeds layer `ℓ`.  Inactive branches have gate 0. -/
theorem C2_square_update_rule (inputs : ℕ → ℚ) (F : ℕ)
    (layers : List DGNLayer) (biasMag lr target : ℚ) (ℓ : ℕ)
    (hℓ : ℓ < layers.length) (j b k : ℕ) :
    ((step_square_loss inputs F layers biasMag lr target true).2.2.getD ℓ
        default).w j b k =
      (layers.getD ℓ default).w j b k -
        lr * boolToQ (gate_values (layers.getD ℓ default) (F + 1)
            (augment biasMag inputs) j b) *
          ((sqLayerOut F (augment biasMag inputs) (layers.getD ℓ default)
              (sqActs F (augment biasMag inputs) layers inputs F ℓ).1
              (sqActs F (augment biasMag inputs) layers inputs F ℓ).2 j
            - target) *
            augment 1 (sqActs F (augment biasMag inputs) layers inputs F ℓ).1 k) := by
  have h : (step_square_loss inputs F layers biasMag lr target true).2.2.getD ℓ
      default =
      { layers.getD ℓ default with
        w := (sqLayerW F (augment biasMag inputs) lr target
          (layers.getD ℓ default)
          (sqActs F (augment biasMag inputs) layers inputs F ℓ).1
          (sqActs F (augment biasMag inputs) layers inputs F ℓ).2 true) } :=
    runSq_getD F (augment biasMag inputs) lr target true layers inputs F ℓ hℓ
  rw [h]
  rfl

/-- Witness for C2: one active-gate layer, `ℓ = 0`, indices `0 0 0`. -/
theorem C2_square_update_rule_witness :
    0 < [WL].length ∧
    ((step_square_loss (fun _ => 1) 2 [WL] 1 (1/10) 2 true).2.2.getD 0
        default).w 0 0 0 =
      ([WL].getD 0 default).w 0 0 0 -
        (1/10) * boolToQ (gate_values ([WL].getD 0 default) (2 + 1)
            (augment 1 (fun _ => 1)) 0 0) *
          ((sqLayerOut 2 (augment 1 (fun _ => 1)) ([WL].getD 0 default)
              (sqActs 2 (augment 1 (fun _ => 1)) [WL] (fun _ => 1) 2 0).1
              (sqActs 2 (augment 1 (fun _ => 1)) [WL] (fun _ => 1) 2 0).2 0
            - 2) *
            augment 1 (sqActs 2 (augment 1 (fun _ => 1)) [WL] (fun _ => 1) 2 0).1 0) :=
  ⟨by norm_num,
    C2_square_update_rule (fun _ => 1) 2 [WL] 1 (1/10) 2 0 (by norm_num) 0 0 0⟩

/-- C3 counterexample: the claim — each (neuron, branch) hyperplane has its
non-bias components (indices 1…F, since the bias occupies slot 0 of the
side information) of unit Euclidean norm after normalization — fails at
`C3h` with `B = 1`, `F = 1`: the normalizer is the norm of component 0
only (numpy drops the *last* component, not the bias slot), here 1, so the
non-bias component keeps its raw value 2 and has squared norm 4 ≠ 1. -/
theorem C3_counterexample :
    (0 : ℚ) < 1 ∧ (1 : ℚ) ^ 2 = hyp_norm_sq 1 1 C3h 0 ∧
    ∑ k in Finset.Icc 1 1, dgn_hyperplanes C3h (fun _ => 1) 0 0 k ^ 2 ≠ 1 := by
  norm_num [hyp_norm_sq, dgn_hyperplanes, C3h, Finset.sum_range_succ]

/-- C3 (amended): after initialization, for every neuron the *joint*
Euclidean norm over all of that neuron's branches of the hyperplane
components excluding the *last* one (components 0…F−1 of the F+1; numpy
`[:, :, :-1]`) equals 1 — encoded by the squared sum being 1; individual
(neuron, branch) slices and the claim's bias-excluding component set need
not be unit norm. -/
theorem C3_hyperplane_normalization (B F : ℕ) (h : ℕ → ℕ → ℕ → ℚ)
    (nrm : ℕ → ℚ) (n : ℕ) (h0 : 0 < nrm n)
    (hsq : nrm n ^ 2 = hyp_norm_sq B F h n) :
    ∑ b in Finset.range B, ∑ k in Finset.range F,
      dgn_hyperplanes h nrm n b k ^ 2 = 1 := by
  have hne : nrm n ^ 2 ≠ 0 := pow_ne_zero 2 (ne_of_gt h0)
  simp only [dgn_hyperplanes, div_pow, ← Finset.sum_div]
  simp only [hyp_norm_sq] at hsq
  rw [← hsq, div_self hne]

/-- Witness for C3 (amended) at an all-ones 1×1×(1+1) hyperplane tensor. -/
theorem C3_hyperplane_normalization_witness :
    ((0 : ℚ) < 1 ∧ (1 : ℚ) ^ 2 = hyp_norm_sq 1 1 (fun _ _ _ => 1) 0) ∧
    ∑ b in Finset.range 1, ∑ k in Finset.range 1,
      dgn_hyperplanes (fun _ _ _ => 1) (fun _ => 1) 0 b k ^ 2 = 1 :=
  ⟨⟨by norm_num, by norm_num [hyp_norm_sq, Finset.sum_range_succ]⟩,
    C3_hyperplane_normalization 1 1 (fun _ _ _ => 1) (fun _ => 1) 0
      (by norm_num) (by norm_num [hyp_norm_sq, Finset.sum_range_succ])⟩

/-- C5: in the Bernoulli regime every activation the loop feeds forward —
the clipped sigmoid of the inputs at `ℓ = 0` and each layer's clipped
output at `ℓ ≥ 1` — and the final prediction returned by `step_bernoulli`
lie in `[ε, 1 − ε]`, for every input, target, weight state and update
flag, whenever the interval is nonempty (`2ε ≤ 1`). -/
theorem C5_bernoulli_output_clipped (σ lg : ℚ → ℚ) (inputs : ℕ → ℚ) (F : ℕ)
    (layers : List DGNLayer) (biasMag lr ε target : ℚ) (u : Bool)
    (hε : 2 * ε ≤ 1) (ℓ i : ℕ) :
    (ε ≤ (bernActs σ lg F (augment biasMag inputs) ε layers
        (fun k => np_clip (σ (inputs k)) ε (1 - ε)) F ℓ).1 i ∧
      (bernActs σ lg F (augment biasMag inputs) ε layers
        (fun k => np_clip (σ (inputs k)) ε (1 - ε)) F ℓ).1 i ≤ 1 - ε) ∧
    (ε ≤ (step_bernoulli σ lg inputs F layers biasMag lr ε target u).1 i ∧
      (step_bernoulli σ lg inputs F layers biasMag lr ε target u).1 i ≤ 1 - ε) := by
  have h0 : ∀ i, ε ≤ np_clip (σ (inputs i)) ε (1 - ε) ∧
      np_clip (σ (inputs i)) ε (1 - ε) ≤ 1 - ε :=
    fun i => np_clip_mem _ ε hε
  exact ⟨bernActs_mem σ lg F (augment biasMag inputs) ε hε layers _ F h0 ℓ i,
    runBern_fst_mem σ lg F (augment biasMag inputs) lr ε target u hε layers _ F h0 i⟩

/-- Witness for C5 on a one-layer network with ε = 1/100. -/
theorem C5_bernoulli_output_clipped_witness :
    2 * (1/100 : ℚ) ≤ 1 ∧
    ((1/100 : ℚ) ≤ (bernActs (fun _ => 0) (fun _ => 0) 2
        (augment 1 (fun _ => 1)) (1/100) [WL]
        (fun k => np_clip ((fun _ => (0:ℚ)) ((fun _ => (1:ℚ)) k)) (1/100)
          (1 - 1/100)) 2 1).1 0 ∧
      (bernActs (fun _ => 0) (fun _ => 0) 2 (augment 1 (fun _ => 1)) (1/100)
        [WL] (fun k => np_clip ((fun _ => (0:ℚ)) ((fun _ => (1:ℚ)) k)) (1/100)
          (1 - 1/100)) 2 1).1 0 ≤ 1 - 1/100) ∧
    ((1/100 : ℚ) ≤ (step_bernoulli (fun _ => 0) (fun _ => 0) (fun _ => 1) 2
        [WL] 1 (1/10) (1/100) 1 false).1 0 ∧
      (step_bernoulli (fun _ => 0) (fun _ => 0) (fun _ => 1) 2 [WL] 1 (1/10)
        (1/100) 1 false).1 0 ≤ 1 - 1/100) := by
  have h := C5_bernoulli_output_clipped (fun _ => 0) (fun _ => 0) (fun _ => 1)
    2 [WL] 1 (1/10) (1/100) 1 false (by norm_num) 1 0
  exact ⟨by norm_num, h.1, h.2⟩

/-- A branch whose gate is inactive is untouched by the squared-loss
update, whatever the update flag. -/
theorem sqLayerW_gate_false (F : ℕ) (side : ℕ → ℚ) (lr target : ℚ)
    (L : DGNLayer) (rin : ℕ → ℚ) (rlen : ℕ) (u : Bool) (j b k : ℕ)
    (hg : gate_values L (F + 1) side j b = false) :
    sqLayerW F side lr target L rin rlen u j b k = L.w j b k := by
  cases u
  · rfl
  · simp [sqLayerW, hg, boolToQ]

/-- A branch whose gate is inactive is untouched by the Bernoulli update,
whatever the update flag. -/
theorem bernLayerW_gate_false (σ lg : ℚ → ℚ) (F : ℕ) (side : ℕ → ℚ)
    (lr ε target : ℚ) (u : Bool) (L : DGNLayer) (rin : ℕ → ℚ) (rlen : ℕ)
    (j b k : ℕ) (hg : gate_values L (F + 1) side j b = false) :
    bernLayerW σ lg F side lr ε target u L rin rlen j b k = L.w j b k := by
  cases u
  · rfl
  · simp [bernLayerW, hg, boolToQ]

/-- A unit whose unclipped prediction error is within ε is untouched by
the Bernoulli update. -/
theorem bernLayerW_skip (σ lg : ℚ → ℚ) (F : ℕ) (side : ℕ → ℚ)
    (lr ε target : ℚ) (u : Bool) (L : DGNLayer) (rin : ℕ → ℚ) (rlen : ℕ)
    (j b k : ℕ) (hle : |target - bernOutU σ lg F side L rin rlen j| ≤ ε) :
    bernLayerW σ lg F side lr ε target u L rin rlen j b k = L.w j b k := by
  cases u
  · rfl
  · simp [bernLayerW, boolToQ, decide_eq_false (not_lt.mpr hle)]

/-- A unit whose unclipped prediction error exceeds ε gets the gated
gradient step in the Bernoulli update. -/
theorem bernLayerW_applied (σ lg : ℚ → ℚ) (F : ℕ) (side : ℕ → ℚ)
    (lr ε target : ℚ) (L : DGNLayer) (rin : ℕ → ℚ) (rlen : ℕ)
    (j b k : ℕ) (hlt : ε < |target - bernOutU σ lg F side L rin rlen j|) :
    bernLayerW σ lg F side lr ε target true L rin rlen j b k =
      L.w j b k - lr * boolToQ (gate_values L (F + 1) side j b) *
        ((bernOut σ lg F side ε L rin rlen j - target) *
          bernHin σ lg rin k) := by
  simp [bernLayerW, boolToQ, hlt]

/-- C6: frame effect — for every call (either regime, any update flag) the
hyperplane tensor and the layer dimensions of every layer are unchanged,
and the weight slices of branches whose gate is inactive for this example
are identical before and after the call (in particular with update on). -/
theorem C6_frame_effect (σ lg : ℚ → ℚ) (inputs : ℕ → ℚ) (F : ℕ)
    (layers : List DGNLayer) (biasMag lr ε target : ℚ) (u : Bool) (ℓ : ℕ)
    (hℓ : ℓ < layers.length) (j b k : ℕ) :
    ((step_square_loss inputs F layers biasMag lr target u).2.2.getD ℓ
        default).h = (layers.getD ℓ default).h ∧
    ((step_square_loss inputs F layers biasMag lr target u).2.2.getD ℓ
        default).nNeurons = (layers.getD ℓ default).nNeurons ∧
    ((step_square_loss inputs F layers biasMag lr target u).2.2.getD ℓ
        default).nBranches = (layers.getD ℓ default).nBranches ∧
    ((step_bernoulli σ lg inputs F layers biasMag lr ε target u).2.2.getD ℓ
        default).h = (layers.getD ℓ default).h ∧
    ((step_bernoulli σ lg inputs F layers biasMag lr ε target u).2.2.getD ℓ
        default).nNeurons = (layers.getD ℓ default).nNeurons ∧
    ((step_bernoulli σ lg inputs F layers biasMag lr ε target u).2.2.getD ℓ
        default).nBranches = (layers.getD ℓ default).nBranches ∧
    (gate_values (layers.getD ℓ default) (F + 1) (augment biasMag inputs)
        j b = false →
      ((step_square_loss inputs F layers biasMag lr target u).2.2.getD ℓ
          default).w j b k = (layers.getD ℓ default).w j b k ∧
      ((step_bernoulli σ lg inputs F layers biasMag lr ε target u).2.2.getD ℓ
          default).w j b k = (layers.getD ℓ default).w j b k) := by
  have hsq : (step_square_loss inputs F layers biasMag lr target u).2.2.getD ℓ
      default =
      { layers.getD ℓ default with
        w := (sqLayerW F (augment biasMag inputs) lr target
          (layers.getD ℓ default)
          (sqActs F (augment biasMag inputs) layers inputs F ℓ).1
          (sqActs F (augment biasMag inputs) layers inputs F ℓ).2 u) } :=
    runSq_getD F (augment biasMag inputs) lr target u layers inputs F ℓ hℓ
  have hbn : (step_bernoulli σ lg inputs F layers biasMag lr ε target u).2.2.getD
      ℓ default =
      { layers.getD ℓ default with
        w := (bernLayerW σ lg F (augment biasMag inputs) lr ε target u
          (layers.getD ℓ default)
          (bernActs σ lg F (augment biasMag inputs) ε layers
            (fun k => np_clip (σ (inputs k)) ε (1 - ε)) F ℓ).1
          (bernActs σ lg F (augment biasMag inputs) ε layers
            (fun k => np_clip (σ (inputs k)) ε (1 - ε)) F ℓ).2) } :=
    runBern_getD σ lg F (augment biasMag inputs) lr ε target u layers
      (fun k => np_clip (σ (inputs k)) ε (1 - ε)) F ℓ hℓ
  rw [hsq, hbn]
  exact ⟨rfl, rfl, rfl, rfl, rfl, rfl, fun hg =>
    ⟨sqLayerW_gate_false F (augment biasMag inputs) lr target
        (layers.getD ℓ default)
        (sqActs F (augment biasMag inputs) layers inputs F ℓ).1
        (sqActs F (augment biasMag inputs) layers inputs F ℓ).2 u j b k hg,
      bernLayerW_gate_false σ lg F (augment biasMag inputs) lr ε target u
        (layers.getD ℓ default)
        (bernActs σ lg F (augment biasMag inputs) ε layers
          (fun k => np_clip (σ (inputs k)) ε (1 - ε)) F ℓ).1
        (bernActs σ lg F (augment biasMag inputs) ε layers
          (fun k => np_clip (σ (inputs k)) ε (1 - ε)) F ℓ).2 j b k hg⟩⟩

/-- Witness for C6: a one-layer net whose single gate is inactive. -/
theorem C6_frame_effect_witness :
    0 < [WLneg].length ∧
    gate_values ([WLneg].getD 0 default) (2 + 1) (augment 1 (fun _ => 1))
      0 0 = false ∧
    (((step_square_loss (fun _ => 1) 2 [WLneg] 1 (1/10) 2 true).2.2.getD 0
        default).w 0 0 0 = ([WLneg].getD 0 default).w 0 0 0 ∧
      ((step_bernoulli (fun _ => 0) (fun _ => 0) (fun _ => 1) 2 [WLneg] 1
          (1/10) (1/100) 2 true).2.2.getD 0 default).w 0 0 0 =
        ([WLneg].getD 0 default).w 0 0 0) :=
  ⟨by norm_num,
    by norm_num [gate_values, astype_bool, heaviside, dotR, augment, WLneg,
      Finset.sum_range_succ],
    (C6_frame_effect (fun _ => 0) (fun _ => 0) (fun _ => 1) 2 [WLneg] 1 (1/10)
        (1/100) 2 true 0 (by norm_num) 0 0 0).2.2.2.2.2.2
      (by norm_num [gate_values, astype_bool, heaviside, dotR, augment, WLneg,
        Finset.sum_range_succ])⟩

/-- C7: Bernoulli regime with update on — for every layer `ℓ` and neuron
`j`, the update of that unit's weights is skipped entirely when
`|target − unclipped prediction| ≤ ε` (the unclipped prediction being the
sigmoid output `bernOutU` before clipping); when
`|target − unclipped prediction| > ε` the new weight is the old one minus
`learning_rate × gate × (clipped prediction − target) × log-odds input`. -/
theorem C7_bernoulli_update_indicator (σ lg : ℚ → ℚ) (inputs : ℕ → ℚ)
    (F : ℕ) (layers : List DGNLayer) (biasMag lr ε target : ℚ) (ℓ : ℕ)
    (hℓ : ℓ < layers.length) (j b k : ℕ) :
    (|target - bernOutU σ lg F (augment biasMag inputs)
        (layers.getD ℓ default)
        (bernActs σ lg F (augment biasMag inputs) ε layers
          (fun m => np_clip (σ (inputs m)) ε (1 - ε)) F ℓ).1
        (bernActs σ lg F (augment biasMag inputs) ε layers
          (fun m => np_clip (σ (inputs m)) ε (1 - ε)) F ℓ).2 j| ≤ ε →
      ((step_bernoulli σ lg inputs F layers biasMag lr ε target true).2.2.getD
          ℓ default).w j b k = (layers.getD ℓ default).w j b k) ∧
    (ε < |target - bernOutU σ lg F (augment biasMag inputs)
        (layers.getD ℓ default)
        (bernActs σ lg F (augment biasMag inputs) ε layers
          (fun m => np_clip (σ (inputs m)) ε (1 - ε)) F ℓ).1
        (bernActs σ lg F (augment biasMag inputs) ε layers
          (fun m => np_clip (σ (inputs m)) ε (1 - ε)) F ℓ).2 j| →
      ((step_bernoulli σ lg inputs F layers biasMag lr ε target true).2.2.getD
          ℓ default).w j b k =
        (layers.getD ℓ default).w j b k -
          lr * boolToQ (gate_values (layers.getD ℓ default) (F + 1)
              (augment biasMag inputs) j b) *
            ((bernOut σ lg F (augment biasMag inputs) ε
                (layers.getD ℓ default)
                (bernActs σ lg F (augment biasMag inputs) ε layers
                  (fun m => np_clip (σ (inputs m)) ε (1 - ε)) F ℓ).1
                (bernActs σ lg F (augment biasMag inputs) ε layers
                  (fun m => np_clip (σ (inputs m)) ε (1 - ε)) F ℓ).2 j
              - target) *
              bernHin σ lg (bernActs σ lg F (augment biasMag inputs) ε layers
                (fun m => np_clip (σ (inputs m)) ε (1 - ε)) F ℓ).1 k)) := by
  have hbn : (step_bernoulli σ lg inputs F layers biasMag lr ε target
      true).2.2.getD ℓ default =
      { layers.getD ℓ default with
        w := (bernLayerW σ lg F (augment biasMag inputs) lr ε target true
          (layers.getD ℓ default)
          (bernActs σ lg F (augment biasMag inputs) ε layers
            (fun m => np_clip (σ (inputs m)) ε (1 - ε)) F ℓ).1
          (bernActs σ lg F (augment biasMag inputs) ε layers
            (fun m => np_clip (σ (inputs m)) ε (1 - ε)) F ℓ).2) } :=
    runBern_getD σ lg F (augment biasMag inputs) lr ε target true layers
      (fun m => np_clip (σ (inputs m)) ε (1 - ε)) F ℓ hℓ
  rw [hbn]
  refine ⟨fun hle => ?_, fun hlt => ?_⟩
  · exact bernLayerW_skip σ lg F (augment biasMag inputs) lr ε target true
      (layers.getD ℓ default)
      (bernActs σ lg F (augment biasMag inputs) ε layers
        (fun m => np_clip (σ (inputs m)) ε (1 - ε)) F ℓ).1
      (bernActs σ lg F (augment biasMag inputs) ε layers
        (fun m => np_clip (σ (inputs m)) ε (1 - ε)) F ℓ).2 j b k hle
  · exact bernLayerW_applied σ lg F (augment biasMag inputs) lr ε target
      (layers.getD ℓ default)
      (bernActs σ lg F (augment biasMag inputs) ε layers
        (fun m => np_clip (σ (inputs m)) ε (1 - ε)) F ℓ).1
      (bernActs σ lg F (augment biasMag inputs) ε layers
        (fun m => np_clip (σ (inputs m)) ε (1 - ε)) F ℓ).2 j b k hlt

/-- Witness for C7 (skip case): target 0 and a sigmoid that is constantly
0 give unclipped prediction error 0 ≤ ε, so the unit's weights are kept. -/
theorem C7_bernoulli_update_indicator_witness :
    0 < [WL].length ∧
    |(0 : ℚ) - bernOutU (fun _ => 0) (fun _ => 0) 2 (augment 1 (fun _ => 1))
        ([WL].getD 0 default)
        (bernActs (fun _ => 0) (fun _ => 0) 2 (augment 1 (fun _ => 1)) (1/100)
          [WL] (fun m => np_clip ((fun _ => (0:ℚ)) ((fun _ => (1:ℚ)) m))
            (1/100) (1 - 1/100)) 2 0).1
        (bernActs (fun _ => 0) (fun _ => 0) 2 (augment 1 (fun _ => 1)) (1/100)
          [WL] (fun m => np_clip ((fun _ => (0:ℚ)) ((fun _ => (1:ℚ)) m))
            (1/100) (1 - 1/100)) 2 0).2 0| ≤ 1/100 ∧
    ((step_bernoulli (fun _ => 0) (fun _ => 0) (fun _ => 1) 2 [WL] 1 (1/10)
        (1/100) 0 true).2.2.getD 0 default).w 0 0 0 =
      ([WL].getD 0 default).w 0 0 0 := by
  refine ⟨by norm_num, by norm_num [bernOutU, bernActs], ?_⟩
  exact (C7_bernoulli_update_indicator (fun _ => 0) (fun _ => 0) (fun _ => 1) 2
      [WL] 1 (1/10) (1/100) 0 0 (by norm_num) 0 0 0).1
    (by norm_num [bernOutU, bernActs])
